import Mathlib

/-!
Verification of the Marker repository (src/mark.py and src/combine.py).

The interactive labeling loop of mark.py is embedded as a state machine
over `MarkState`; the rendering helper `draw_progress_bars`, the gap-fill
and CSV export stage, and the combiner's column naming and summary
statistics are embedded as executable functions.  Machine floats in the
source are modelled by exact rationals; Python `int()` truncation is
`pyInt`, Python `round(x, 2)` (half-to-even) is `pyRound2`; code that can
raise (division by zero) returns `Option`.
-/

namespace Marker

/-- Python `int()` applied to a real quantity: truncation toward zero. -/
def pyInt (q : ℚ) : ℤ := if 0 ≤ q then ⌊q⌋ else -⌊-q⌋

/-- Round a rational to the nearest integer, ties to even (Python `round`). -/
def roundHalfEven (q : ℚ) : ℤ :=
  if q - (⌊q⌋ : ℚ) = 1 / 2 then (if ⌊q⌋ % 2 = 0 then ⌊q⌋ else ⌊q⌋ + 1) else round q

/-- Python `round(x, 2)`: two decimal places, ties to even. -/
def pyRound2 (q : ℚ) : ℚ := (roundHalfEven (q * 100) : ℚ) / 100

/-- Lookup in the label dictionary (`labels` in mark.py): the entry most
recently written for a key shadows older ones. -/
def lget : List (ℤ × ℤ) → ℤ → Option ℤ
  | [], _ => none
  | (k, v) :: t, i => if k = i then some v else lget t i

/-- `labels.get(i, -1)` from mark.py. -/
def getLabel (l : List (ℤ × ℤ)) (i : ℤ) : ℤ := (lget l i).getD (-1)

/-- The `DEFAULT_STATES` table with its `.get(state, "unlabeled")` default. -/
def stateLabelName (s : ℤ) : String :=
  if s = -1 then "unlabeled"
  else if s = 0 then "not flying"
  else if s = 1 then "transition"
  else if s = 2 then "flying"
  else "unlabeled"

/-- The `STATE_COLORS` table with its gray default. -/
def STATE_COLORS (s : ℤ) : ℤ × ℤ × ℤ :=
  if s = -1 then (128, 128, 128)
  else if s = 0 then (255, 0, 0)
  else if s = 1 then (255, 255, 0)
  else if s = 2 then (0, 255, 0)
  else (128, 128, 128)

/-- Keys the mark.py event loop distinguishes. -/
inductive Key where
  | escape
  | q
  | right
  | left
  | comma
  | period
  | space
  | digit (d : Fin 3)
  | other
deriving DecidableEq, Repr

/-- Pygame events the mark.py event loop distinguishes. -/
inductive Event where
  | quit
  | keydown (k : Key)
  | keyup (k : Key)
deriving DecidableEq, Repr

/-- The mutable state of mark.py's main loop. -/
structure MarkState where
  labels : List (ℤ × ℤ)
  current_frame : ℤ
  auto_play : Bool
  held_state : Option (Fin 3)
  held_state_start : Option ℤ
  held_state_last_advance : Option ℤ
  running : Bool
deriving DecidableEq, Repr

/-- Initial state of the loop: playhead 0, empty label map, running. -/
def initState : MarkState :=
  { labels := []
    current_frame := 0
    auto_play := false
    held_state := none
    held_state_start := none
    held_state_last_advance := none
    running := true }

/-- One iteration of the `for event in pygame.event.get()` body. -/
def processEvent (nframes : ℤ) (fps : ℚ) (now : ℤ) (s : MarkState) (e : Event) : MarkState :=
  match e with
  | .quit => { s with running := false }
  | .keydown k =>
    match k with
    | .escape => { s with running := false }
    | .q => { s with running := false }
    | .right => { s with current_frame := min (nframes - 1) (s.current_frame + 1) }
    | .left => { s with current_frame := max 0 (s.current_frame - 1) }
    | .comma => { s with current_frame := max 0 (s.current_frame - pyInt (5 * fps)) }
    | .period => { s with current_frame := min (nframes - 1) (s.current_frame + pyInt (5 * fps)) }
    | .space => { s with auto_play := true }
    | .digit d =>
      match s.held_state with
      | none =>
        { s with held_state := some d
                 held_state_start := some now
                 held_state_last_advance := none
                 labels := (s.current_frame, (d.val : ℤ)) :: s.labels }
      | some _ => s
    | .other => s
  | .keyup k =>
    match k with
    | .digit d =>
      match s.held_state with
      | some h =>
        if h = d then
          { s with held_state := none
                   held_state_start := none
                   held_state_last_advance := none }
        else s
      | none => s
    | _ => s

/-- The space-bar auto-play step at the bottom of the loop body. -/
def autoStep (nframes : ℤ) (s : MarkState) : MarkState :=
  if s.auto_play then
    { s with current_frame := s.current_frame + 1
             running := if nframes ≤ s.current_frame + 1 then false else s.running }
  else s

/-- A digit-hold auto-advance: record the advance time, label the current
frame with the held digit, move on one frame, stop if past the end. -/
def advanceLabel (nframes : ℤ) (now : ℤ) (d : Fin 3) (s : MarkState) : MarkState :=
  { s with held_state_last_advance := some now
           labels := (s.current_frame, (d.val : ℤ)) :: s.labels
           current_frame := s.current_frame + 1
           running := if nframes ≤ s.current_frame + 1 then false else s.running }

/-- The held-number-key block of mark.py (lines 218-240), falling through
to the auto-play block when no hold advance fires. -/
def heldPhase (nframes : ℤ) (fps : ℚ) (now : ℤ) (s : MarkState) : MarkState :=
  match s.held_state with
  | none => autoStep nframes s
  | some d =>
    match s.held_state_last_advance with
    | none =>
      match s.held_state_start with
      | some t0 =>
        if 300 ≤ now - t0 then advanceLabel nframes now d s else autoStep nframes s
      | none => autoStep nframes s
    | some tl =>
      if 1000 / fps ≤ ((now - tl : ℤ) : ℚ) then advanceLabel nframes now d s
      else autoStep nframes s

/-- One full iteration of the `while running` body: process the tick's
events, drop auto-play when space is no longer held, then run the
held-digit / auto-play phase. -/
def tick (nframes : ℤ) (fps : ℚ) (events : List Event) (spaceHeld : Bool) (now : ℤ)
    (s : MarkState) : MarkState :=
  let s1 := events.foldl (processEvent nframes fps now) s
  let s2 := if spaceHeld then s1 else { s1 with auto_play := false }
  heldPhase nframes fps now s2

/-- Run the while loop over a list of tick inputs (events, space held,
clock reading); the loop body only executes while `running` holds. -/
def runTicks (nframes : ℤ) (fps : ℚ) (ts : List (List Event × Bool × ℤ))
    (s : MarkState) : MarkState :=
  ts.foldl (fun st t => if st.running then tick nframes fps t.1 t.2.1 t.2.2 st else st) s

/-- Post-loop gap fill (mark.py lines 281-284): every index in
`[0, nframes)` absent from the label map is set to `-1`. -/
def gapFill (n : ℕ) (l : List (ℤ × ℤ)) : List (ℤ × ℤ) :=
  (List.range n).foldl
    (fun acc i => if lget acc (i : ℤ) = none then ((i : ℤ), -1) :: acc else acc) l

/-- The data rows of the exported CSV (mark.py lines 291-293). -/
def exportRows (n : ℕ) (l : List (ℤ × ℤ)) : List (ℤ × ℤ × String) :=
  (List.range n).map
    (fun (i : ℕ) => ((i : ℤ), getLabel l (i : ℤ), stateLabelName (getLabel l (i : ℤ))))

/-- The detail-strip window `[start_frame, end_frame]` of
`draw_progress_bars` (mark.py lines 93-94). -/
def detailWindow (c nframes : ℤ) (fps : ℚ) : ℤ × ℤ :=
  (max 0 (c - pyInt (5 * fps)), min nframes (c + pyInt (5 * fps)))

/-- The detail-strip fill loop (mark.py lines 95-100): one color per pixel
column; columns whose sampled frame is past the end keep the zero
initialisation (black). -/
def detailBar (labels : List (ℤ × ℤ)) (c nframes : ℤ) (W : ℕ) (fps : ℚ) :
    List (ℤ × ℤ × ℤ) :=
  let w := detailWindow c nframes fps
  (List.range W).map (fun (x : ℕ) =>
    let fi := w.1 + pyInt ((x : ℚ) / (W : ℚ) * ((w.2 - w.1 : ℤ) : ℚ))
    if fi < nframes then STATE_COLORS (getLabel labels fi) else (0, 0, 0))

/-- The full detail-strip rendering (mark.py lines 91-115): the bar fill,
then the playhead indicator column, then the eleven tick times.  A
`ZeroDivisionError` (zero-width window at the indicator, or `fps = 0` at
the tick times) is modelled as `none`. -/
def drawDetail (labels : List (ℤ × ℤ)) (c nframes : ℤ) (W : ℕ) (fps : ℚ) :
    Option (List (ℤ × ℤ × ℤ) × ℤ × List ℚ) :=
  let w := detailWindow c nframes fps
  let bar := detailBar labels c nframes W fps
  if w.2 - w.1 = 0 then none
  else if fps = 0 then none
  else some (bar,
    pyInt (((c - w.1 : ℤ) : ℚ) / ((w.2 - w.1 : ℤ) : ℚ) * (W : ℚ)),
    (List.range 11).map (fun (i : ℕ) =>
      (((w.1 : ℤ) : ℚ) + (i : ℚ) / 10 * ((w.2 - w.1 : ℤ) : ℚ)) / fps))

/-! Embedding of combine.py. -/

/-- Occurrences of state `s` among the present (non-missing) entries of a
column: `series.value_counts().get(s, 0)` after `dropna`. -/
def countVal : List (Option ℤ) → ℤ → ℕ
  | [], _ => 0
  | none :: t, s => countVal t s
  | some v :: t, s => (if v = s then 1 else 0) + countVal t s

/-- Number of present entries of a column whose value lies in the full
state enumeration `{-1, 0, 1, 2}`. -/
def presentEnumCount : List (Option ℤ) → ℕ
  | [] => 0
  | none :: t => presentEnumCount t
  | some v :: t =>
    (if v = -1 ∨ v = 0 ∨ v = 1 ∨ v = 2 then 1 else 0) + presentEnumCount t

/-- Number of present entries of a column whose value lies in the labeled
states `{0, 1, 2}`. -/
def labeledCount : List (Option ℤ) → ℕ
  | [] => 0
  | none :: t => labeledCount t
  | some v :: t => (if v = 0 ∨ v = 1 ∨ v = 2 then 1 else 0) + labeledCount t

/-- One row of summary.csv (combine.py lines 82-95), minus the column
name. -/
structure SummaryRow where
  count_m1 : ℕ
  count_0 : ℕ
  count_1 : ℕ
  count_2 : ℕ
  percentage_m1 : ℚ
  percentage_0 : ℚ
  percentage_1 : ℚ
  percentage_2 : ℚ
  corrected_percentage_0 : ℚ
  corrected_percentage_1 : ℚ
  corrected_percentage_2 : ℚ
deriving DecidableEq, Repr

/-- The per-column statistics block of combine.py (lines 60-95). -/
def summaryFor (col : List (Option ℤ)) : SummaryRow :=
  let cm1 := countVal col (-1)
  let c0 := countVal col 0
  let c1 := countVal col 1
  let c2 := countVal col 2
  let total := cm1 + c0 + c1 + c2
  let valid := c0 + c1 + c2
  { count_m1 := cm1
    count_0 := c0
    count_1 := c1
    count_2 := c2
    percentage_m1 := if 0 < total then pyRound2 ((cm1 : ℚ) / (total : ℚ) * 100) else 0
    percentage_0 := if 0 < total then pyRound2 ((c0 : ℚ) / (total : ℚ) * 100) else 0
    percentage_1 := if 0 < total then pyRound2 ((c1 : ℚ) / (total : ℚ) * 100) else 0
    percentage_2 := if 0 < total then pyRound2 ((c2 : ℚ) / (total : ℚ) * 100) else 0
    corrected_percentage_0 := if 0 < valid then pyRound2 ((c0 : ℚ) / (valid : ℚ) * 100) else 0
    corrected_percentage_1 := if 0 < valid then pyRound2 ((c1 : ℚ) / (valid : ℚ) * 100) else 0
    corrected_percentage_2 := if 0 < valid then pyRound2 ((c2 : ℚ) / (valid : ℚ) * 100) else 0 }

/-- Insert a frame index into a sorted duplicate-free index list. -/
def insertSorted (x : ℤ) : List ℤ → List ℤ
  | [] => [x]
  | a :: t => if x = a then a :: t else if x < a then x :: a :: t else a :: insertSorted x t

/-- The outer-join index of `pd.concat(..., axis=1, join='outer')`: the
sorted union of the input frame indexes. -/
def joinIdx (files : List (List (ℤ × ℤ))) : List ℤ :=
  files.foldl (fun acc f => f.foldl (fun acc2 p => insertSorted p.1 acc2) acc) []

/-- One combined-table column: the file's state at each joined frame
index, missing where the file has no such frame. -/
def columnFor (rows : List (ℤ × ℤ)) (idx : List ℤ) : List (Option ℤ) :=
  idx.map (fun i => lget rows i)

/-- Does `pat` occur at the head of `s`? -/
def headMatches : List Char → List Char → Bool
  | [], _ => true
  | _ :: _, [] => false
  | p :: ps, c :: cs => if p = c then headMatches ps cs else false

/-- The seven characters of the pattern removed by combine.py line 36. -/
def labelsPat : List Char := '_' :: 'l' :: 'a' :: 'b' :: 'e' :: 'l' :: 's' :: []

/-- Python `base_name.replace('_labels', '')`, fuel-driven: remove every
occurrence, scanning left to right without overlap.  A fuel of the input
length always suffices since each step consumes at least one character. -/
def replLabelsAux : ℕ → List Char → List Char
  | 0, s => s
  | _ + 1, [] => []
  | fuel + 1, c :: cs =>
    if headMatches labelsPat (c :: cs) then replLabelsAux fuel (cs.drop 6)
    else c :: replLabelsAux fuel cs

/-- Python `base_name.replace('_labels', '')`. -/
def replLabels (s : List Char) : List Char := replLabelsAux s.length s

/-- Index of the last occurrence of a character in a list, if any. -/
def lastIdxOf (c : Char) : List Char → Option ℕ
  | [] => none
  | a :: t =>
    match lastIdxOf c t with
    | some i => some (i + 1)
    | none => if a = c then some 0 else none

/-- `os.path.splitext(p)[0]` on a POSIX path: cut at the last dot of the
basename, unless every basename character before it is itself a dot. -/
def splitextStem (p : List Char) : List Char :=
  match lastIdxOf '.' p with
  | none => p
  | some d =>
    let f : ℕ :=
      match lastIdxOf '/' p with
      | some s2 => s2 + 1
      | none => 0
    if f ≤ d then
      if ((p.drop f).take (d - f)).any (fun ch => ch != '.') then p.take d else p
    else p

/-- The combined-table column name combine.py derives from a walked csv
path (lines 35-37): extension dropped, every `_labels` occurrence
removed, `_state` appended. -/
def colName (p : List Char) : List Char :=
  replLabels (splitextStem p) ++ ('_' :: 's' :: 't' :: 'a' :: 't' :: 'e' :: [])

/-- Drop any directory components of a path. -/
def dropDirs (p : List Char) : List Char :=
  match lastIdxOf '/' p with
  | some s2 => p.drop (s2 + 1)
  | none => p

/-- Does `pat` occur at the end of `s`? -/
def tailMatches (pat s : List Char) : Bool := headMatches pat.reverse s.reverse

/-- Strip one trailing `_labels`, when present. -/
def stripLabelsSfx (s : List Char) : List Char :=
  if tailMatches labelsPat s then s.take (s.length - 7) else s

/-- Modelled from the spec: the column name claim C9 describes — the
file's stem (basename without extension) with a trailing `_labels`
stripped, followed by `_state`. -/
def specColName (p : List Char) : List Char :=
  stripLabelsSfx (splitextStem (dropDirs p)) ++ ('_' :: 's' :: 't' :: 'a' :: 't' :: 'e' :: [])

/-- The combining stage of combine.py (lines 20-52) over already-read
inputs: each is a walked path and, when reading and the `state` column
lookup both succeeded, its `(frame, state)` rows; failures contribute
nothing.  Produces the named columns of the combined table, outer-joined
and truncated to 7750 rows. -/
def combineFiles (files : List (List Char × Option (List (ℤ × ℤ)))) :
    List (List Char × List (Option ℤ)) :=
  let ok := files.filterMap (fun f => f.2.map (fun rows => (colName f.1, rows)))
  let idx := (joinIdx (ok.map Prod.snd)).take 7750
  ok.map (fun f => (f.1, columnFor f.2 idx))

/-! Helper lemmas. -/

theorem pyInt_nonneg {q : ℚ} (h : 0 ≤ q) : 0 ≤ pyInt q := by
  rw [pyInt, if_pos h]
  exact Int.floor_nonneg.mpr h

theorem pyInt_zero : pyInt 0 = 0 := by
  rw [pyInt, if_pos le_rfl]
  exact Int.floor_zero

theorem gapFill_succ (n : ℕ) (l : List (ℤ × ℤ)) :
    gapFill (n + 1) l =
      (if lget (gapFill n l) (n : ℤ) = none then ((n : ℤ), -1) :: gapFill n l
       else gapFill n l) := by
  simp [gapFill, List.range_succ]

theorem lget_gapFill (n : ℕ) (l : List (ℤ × ℤ)) (j : ℤ) :
    lget (gapFill n l) j =
      if 0 ≤ j ∧ j < (n : ℤ) ∧ lget l j = none then some (-1) else lget l j := by
  induction n with
  | zero =>
    rw [if_neg]
    · rfl
    · rintro ⟨h1, h2, -⟩
      omega
  | succ n ih =>
    rw [gapFill_succ]
    rcases eq_or_ne j (n : ℤ) with rfl | hj
    · have hn : lget (gapFill n l) (n : ℤ) = lget l (n : ℤ) := by
        rw [ih, if_neg]
        rintro ⟨-, h2, -⟩
        omega
      by_cases h : lget l (n : ℤ) = none
      · rw [if_pos (by rw [hn]; exact h)]
        rw [lget, if_pos rfl, if_pos ⟨by omega, by push_cast; omega, h⟩]
      · rw [if_neg (by rw [hn]; exact h), hn, if_neg]
        rintro ⟨-, -, h3⟩
        exact h h3
    · have hcons : ∀ t : List (ℤ × ℤ),
          lget (((n : ℤ), -1) :: t) j = lget t j := by
        intro t
        rw [lget, if_neg (fun h => hj h.symm)]
      by_cases h : lget (gapFill n l) (n : ℤ) = none
      · rw [if_pos h, hcons, ih]
        by_cases hc : 0 ≤ j ∧ j < (n : ℤ) ∧ lget l j = none
        · rw [if_pos hc, if_pos ⟨hc.1, by push_cast; omega, hc.2.2⟩]
        · rw [if_neg hc, if_neg]
          rintro ⟨h1, h2, h3⟩
          exact hc ⟨h1, by push_cast at h2 ⊢; omega, h3⟩
      · rw [if_neg h, ih]
        by_cases hc : 0 ≤ j ∧ j < (n : ℤ) ∧ lget l j = none
        · rw [if_pos hc, if_pos ⟨hc.1, by push_cast; omega, hc.2.2⟩]
        · rw [if_neg hc, if_neg]
          rintro ⟨h1, h2, h3⟩
          exact hc ⟨h1, by push_cast at h2 ⊢; omega, h3⟩

theorem getLabel_gapFill (n : ℕ) (l : List (ℤ × ℤ)) (j : ℤ) :
    getLabel (gapFill n l) j = getLabel l j := by
  rw [getLabel, getLabel, lget_gapFill]
  split_ifs with h
  · rw [h.2.2]
    rfl
  · rfl

theorem processEvent_frame_bounds (nf : ℤ) (fps : ℚ) (now : ℤ) (s : MarkState) (e : Event)
    (hj : 0 ≤ pyInt (5 * fps)) (h0 : 0 ≤ s.current_frame) (h1 : s.current_frame < nf) :
    0 ≤ (processEvent nf fps now s e).current_frame ∧
      (processEvent nf fps now s e).current_frame < nf := by
  cases e with
  | quit => exact ⟨h0, h1⟩
  | keydown k =>
    cases k with
    | escape => exact ⟨h0, h1⟩
    | q => exact ⟨h0, h1⟩
    | right => refine ⟨?_, ?_⟩ <;> (simp only [processEvent]; omega)
    | left => refine ⟨?_, ?_⟩ <;> (simp only [processEvent]; omega)
    | comma => refine ⟨?_, ?_⟩ <;> (simp only [processEvent]; omega)
    | period => refine ⟨?_, ?_⟩ <;> (simp only [processEvent]; omega)
    | space => exact ⟨h0, h1⟩
    | other => exact ⟨h0, h1⟩
    | digit d =>
      rcases hs : s.held_state with - | e2
      · simp only [processEvent, hs]
        exact ⟨h0, h1⟩
      · simp only [processEvent, hs]
        exact ⟨h0, h1⟩
  | keyup k =>
    cases k with
    | escape => exact ⟨h0, h1⟩
    | q => exact ⟨h0, h1⟩
    | right => exact ⟨h0, h1⟩
    | left => exact ⟨h0, h1⟩
    | comma => exact ⟨h0, h1⟩
    | period => exact ⟨h0, h1⟩
    | space => exact ⟨h0, h1⟩
    | other => exact ⟨h0, h1⟩
    | digit d =>
      rcases hs : s.held_state with - | e2
      · simp only [processEvent, hs]
        exact ⟨h0, h1⟩
      · simp only [processEvent, hs]
        split <;> exact ⟨h0, h1⟩

theorem foldl_processEvent_bounds (nf : ℤ) (fps : ℚ) (now : ℤ) (es : List Event)
    (hj : 0 ≤ pyInt (5 * fps)) :
    ∀ s : MarkState, 0 ≤ s.current_frame → s.current_frame < nf →
      0 ≤ (es.foldl (processEvent nf fps now) s).current_frame ∧
        (es.foldl (processEvent nf fps now) s).current_frame < nf := by
  induction es with
  | nil => exact fun s h0 h1 => ⟨h0, h1⟩
  | cons e es ih =>
    intro s h0 h1
    have h := processEvent_frame_bounds nf fps now s e hj h0 h1
    exact ih _ h.1 h.2

theorem autoStep_bounds (nf : ℤ) (s : MarkState)
    (h0 : 0 ≤ s.current_frame) (h1 : s.current_frame < nf) :
    0 ≤ (autoStep nf s).current_frame ∧ (autoStep nf s).current_frame ≤ nf ∧
      ((autoStep nf s).running = true → (autoStep nf s).current_frame < nf) := by
  rw [autoStep]
  split
  · refine ⟨by dsimp only; omega, by dsimp only; omega, ?_⟩
    dsimp only
    split
    · intro h
      exact absurd h (by simp)
    · intro h
      omega
  · exact ⟨h0, by omega, fun _ => h1⟩

theorem advanceLabel_bounds (nf now : ℤ) (d : Fin 3) (s : MarkState)
    (h0 : 0 ≤ s.current_frame) (h1 : s.current_frame < nf) :
    0 ≤ (advanceLabel nf now d s).current_frame ∧
      (advanceLabel nf now d s).current_frame ≤ nf ∧
      ((advanceLabel nf now d s).running = true →
        (advanceLabel nf now d s).current_frame < nf) := by
  rw [advanceLabel]
  refine ⟨by dsimp only; omega, by dsimp only; omega, ?_⟩
  dsimp only
  split
  · intro h
    exact absurd h (by simp)
  · intro h
    omega

theorem heldPhase_bounds (nf : ℤ) (fps : ℚ) (now : ℤ) (s : MarkState)
    (h0 : 0 ≤ s.current_frame) (h1 : s.current_frame < nf) :
    0 ≤ (heldPhase nf fps now s).current_frame ∧
      (heldPhase nf fps now s).current_frame ≤ nf ∧
      ((heldPhase nf fps now s).running = true →
        (heldPhase nf fps now s).current_frame < nf) := by
  rcases hd : s.held_state with - | d
  · simp only [heldPhase, hd]
    exact autoStep_bounds nf s h0 h1
  · rcases hl : s.held_state_last_advance with - | tl
    · rcases ht : s.held_state_start with - | t0
      · simp only [heldPhase, hd, hl, ht]
        exact autoStep_bounds nf s h0 h1
      · simp only [heldPhase, hd, hl, ht]
        split
        · exact advanceLabel_bounds nf now d s h0 h1
        · exact autoStep_bounds nf s h0 h1
    · simp only [heldPhase, hd, hl]
      split
      · exact advanceLabel_bounds nf now d s h0 h1
      · exact autoStep_bounds nf s h0 h1

theorem tick_bounds (nf : ℤ) (fps : ℚ) (es : List Event) (sp : Bool) (now : ℤ) (s : MarkState)
    (hj : 0 ≤ pyInt (5 * fps)) (h0 : 0 ≤ s.current_frame) (h1 : s.current_frame < nf) :
    0 ≤ (tick nf fps es sp now s).current_frame ∧
      (tick nf fps es sp now s).current_frame ≤ nf ∧
      ((tick nf fps es sp now s).running = true →
        (tick nf fps es sp now s).current_frame < nf) := by
  have h := foldl_processEvent_bounds nf fps now es hj s h0 h1
  rw [tick]
  cases sp with
  | false =>
    simp only [Bool.false_eq_true, if_false]
    exact heldPhase_bounds nf fps now _ h.1 h.2
  | true =>
    simp only [if_true]
    exact heldPhase_bounds nf fps now _ h.1 h.2

theorem runTicks_bounds (nf : ℤ) (fps : ℚ) (ts : List (List Event × Bool × ℤ))
    (hj : 0 ≤ pyInt (5 * fps)) :
    ∀ s : MarkState, 0 ≤ s.current_frame → s.current_frame ≤ nf →
      (s.running = true → s.current_frame < nf) →
      0 ≤ (runTicks nf fps ts s).current_frame ∧
        (runTicks nf fps ts s).current_frame ≤ nf ∧
        ((runTicks nf fps ts s).running = true →
          (runTicks nf fps ts s).current_frame < nf) := by
  induction ts with
  | nil => exact fun s h0 h1 h2 => ⟨h0, h1, h2⟩
  | cons t ts ih =>
    intro s h0 h1 h2
    have step : runTicks nf fps (t :: ts) s =
        runTicks nf fps ts (if s.running then tick nf fps t.1 t.2.1 t.2.2 s else s) := rfl
    rw [step]
    by_cases hr : s.running
    · rw [if_pos hr]
      have hb := tick_bounds nf fps t.1 t.2.1 t.2.2 s hj h0 (h2 hr)
      exact ih _ hb.1 hb.2.1 hb.2.2
    · rw [if_neg hr]
      exact ih s h0 h1 h2

theorem processEvent_labels_sub (nf : ℤ) (fps : ℚ) (now : ℤ) (s : MarkState) (e : Event)
    (h : ∀ p ∈ s.labels, p.2 = 0 ∨ p.2 = 1 ∨ p.2 = 2) :
    ∀ p ∈ (processEvent nf fps now s e).labels, p.2 = 0 ∨ p.2 = 1 ∨ p.2 = 2 := by
  cases e with
  | quit => exact h
  | keydown k =>
    cases k with
    | escape => exact h
    | q => exact h
    | right => exact h
    | left => exact h
    | comma => exact h
    | period => exact h
    | space => exact h
    | other => exact h
    | digit d =>
      rcases hs : s.held_state with - | e2
      · simp only [processEvent, hs]
        intro p hp
        rcases List.mem_cons.mp hp with rfl | hp
        · have hlt := d.isLt
          dsimp only
          omega
        · exact h p hp
      · simp only [processEvent, hs]
        exact h
  | keyup k =>
    cases k with
    | escape => exact h
    | q => exact h
    | right => exact h
    | left => exact h
    | comma => exact h
    | period => exact h
    | space => exact h
    | other => exact h
    | digit d =>
      rcases hs : s.held_state with - | e2
      · simp only [processEvent, hs]
        exact h
      · simp only [processEvent, hs]
        split <;> exact h

theorem foldl_processEvent_labels_sub (nf : ℤ) (fps : ℚ) (now : ℤ) (es : List Event) :
    ∀ s : MarkState, (∀ p ∈ s.labels, p.2 = 0 ∨ p.2 = 1 ∨ p.2 = 2) →
      ∀ p ∈ (es.foldl (processEvent nf fps now) s).labels, p.2 = 0 ∨ p.2 = 1 ∨ p.2 = 2 := by
  induction es with
  | nil => exact fun s h => h
  | cons e es ih =>
    intro s h
    exact ih _ (processEvent_labels_sub nf fps now s e h)

theorem heldPhase_labels_sub (nf : ℤ) (fps : ℚ) (now : ℤ) (s : MarkState)
    (h : ∀ p ∈ s.labels, p.2 = 0 ∨ p.2 = 1 ∨ p.2 = 2) :
    ∀ p ∈ (heldPhase nf fps now s).labels, p.2 = 0 ∨ p.2 = 1 ∨ p.2 = 2 := by
  have hauto : ∀ p ∈ (autoStep nf s).labels, p.2 = 0 ∨ p.2 = 1 ∨ p.2 = 2 := by
    rw [autoStep]
    split
    · exact h
    · exact h
  have hadv : ∀ d : Fin 3, ∀ p ∈ (advanceLabel nf now d s).labels,
      p.2 = 0 ∨ p.2 = 1 ∨ p.2 = 2 := by
    intro d p hp
    rw [advanceLabel] at hp
    dsimp only at hp
    rcases List.mem_cons.mp hp with rfl | hp
    · have hlt := d.isLt
      dsimp only
      omega
    · exact h p hp
  rcases hd : s.held_state with - | d
  · simp only [heldPhase, hd]
    exact hauto
  · rcases hl : s.held_state_last_advance with - | tl
    · rcases ht : s.held_state_start with - | t0
      · simp only [heldPhase, hd, hl, ht]
        exact hauto
      · simp only [heldPhase, hd, hl, ht]
        split
        · exact hadv d
        · exact hauto
    · simp only [heldPhase, hd, hl]
      split
      · exact hadv d
      · exact hauto

theorem tick_labels_sub (nf : ℤ) (fps : ℚ) (es : List Event) (sp : Bool) (now : ℤ)
    (s : MarkState) (h : ∀ p ∈ s.labels, p.2 = 0 ∨ p.2 = 1 ∨ p.2 = 2) :
    ∀ p ∈ (tick nf fps es sp now s).labels, p.2 = 0 ∨ p.2 = 1 ∨ p.2 = 2 := by
  have h1 := foldl_processEvent_labels_sub nf fps now es s h
  rw [tick]
  cases sp with
  | false =>
    simp only [Bool.false_eq_true, if_false]
    exact heldPhase_labels_sub nf fps now _ h1
  | true =>
    simp only [if_true]
    exact heldPhase_labels_sub nf fps now _ h1

theorem runTicks_labels_sub (nf : ℤ) (fps : ℚ) (ts : List (List Event × Bool × ℤ)) :
    ∀ s : MarkState, (∀ p ∈ s.labels, p.2 = 0 ∨ p.2 = 1 ∨ p.2 = 2) →
      ∀ p ∈ (runTicks nf fps ts s).labels, p.2 = 0 ∨ p.2 = 1 ∨ p.2 = 2 := by
  induction ts with
  | nil => exact fun s h => h
  | cons t ts ih =>
    intro s h
    have step : runTicks nf fps (t :: ts) s =
        runTicks nf fps ts (if s.running then tick nf fps t.1 t.2.1 t.2.2 s else s) := rfl
    rw [step]
    by_cases hr : s.running
    · rw [if_pos hr]
      exact ih _ (tick_labels_sub nf fps t.1 t.2.1 t.2.2 s h)
    · rw [if_neg hr]
      exact ih s h

theorem gapFill_labels_sub (n : ℕ) (l : List (ℤ × ℤ))
    (h : ∀ p ∈ l, p.2 = 0 ∨ p.2 = 1 ∨ p.2 = 2) :
    ∀ p ∈ gapFill n l, p.2 = -1 ∨ p.2 = 0 ∨ p.2 = 1 ∨ p.2 = 2 := by
  induction n with
  | zero => exact fun p hp => Or.inr (h p hp)
  | succ n ih =>
    rw [gapFill_succ]
    split
    · intro p hp
      rcases List.mem_cons.mp hp with rfl | hp
      · exact Or.inl rfl
      · exact ih p hp
    · exact ih

theorem enum_indicator (v : ℤ) :
    (if v = -1 then (1 : ℕ) else 0) + (if v = 0 then (1 : ℕ) else 0) +
      (if v = 1 then (1 : ℕ) else 0) + (if v = 2 then (1 : ℕ) else 0) =
      (if v = -1 ∨ v = 0 ∨ v = 1 ∨ v = 2 then 1 else 0) := by
  by_cases h1 : v = -1
  · subst h1
    simp
  · by_cases h2 : v = 0
    · subst h2
      simp
    · by_cases h3 : v = 1
      · subst h3
        simp
      · by_cases h4 : v = 2
        · subst h4
          simp
        · simp [h1, h2, h3, h4]

theorem labeled_indicator (v : ℤ) :
    (if v = 0 then (1 : ℕ) else 0) + (if v = 1 then (1 : ℕ) else 0) +
      (if v = 2 then (1 : ℕ) else 0) =
      (if v = 0 ∨ v = 1 ∨ v = 2 then 1 else 0) := by
  by_cases h2 : v = 0
  · subst h2
    simp
  · by_cases h3 : v = 1
    · subst h3
      simp
    · by_cases h4 : v = 2
      · subst h4
        simp
      · simp [h2, h3, h4]

theorem countVal_sum_eq_presentEnum (col : List (Option ℤ)) :
    countVal col (-1) + countVal col 0 + countVal col 1 + countVal col 2 =
      presentEnumCount col := by
  induction col with
  | nil => rfl
  | cons o t ih =>
    rcases o with - | v
    · simpa [countVal, presentEnumCount] using ih
    · simp only [countVal, presentEnumCount]
      have hi := enum_indicator v
      omega

theorem countVal_sum_eq_labeled (col : List (Option ℤ)) :
    countVal col 0 + countVal col 1 + countVal col 2 = labeledCount col := by
  induction col with
  | nil => rfl
  | cons o t ih =>
    rcases o with - | v
    · simpa [countVal, labeledCount] using ih
    · simp only [countVal, labeledCount]
      have hi := labeled_indicator v
      omega

theorem map_fst_filterMap_aux (k : List Char × List (ℤ × ℤ) → List (Option ℤ))
    (l : List (List Char × Option (List (ℤ × ℤ)))) :
    ((l.filterMap (fun f => f.2.map (fun rows => (colName f.1, rows)))).map
        (fun f => (f.1, k f))).map Prod.fst =
      (l.filterMap (fun f => f.2.map (fun _ => f.1))).map colName := by
  induction l with
  | nil => rfl
  | cons f fs ih =>
    rcases f with ⟨p, d⟩
    rcases d with - | rows
    · simpa [List.filterMap_cons] using ih
    · simpa [List.filterMap_cons] using ih

theorem length_filterMap_aux (l : List (List Char × Option (List (ℤ × ℤ)))) :
    (l.filterMap (fun f => f.2.map (fun rows => (colName f.1, rows)))).length =
      (l.filterMap (fun f => f.2)).length := by
  induction l with
  | nil => rfl
  | cons f fs ih =>
    rcases f with ⟨p, d⟩
    rcases d with - | rows
    · simpa [List.filterMap_cons] using ih
    · simpa [List.filterMap_cons] using ih

theorem heldPhase_fast_fire (nf : ℤ) (fps : ℚ) (now : ℤ) (s : MarkState) (d : Fin 3) (tl : ℤ)
    (h1 : s.held_state = some d) (h2 : s.held_state_last_advance = some tl)
    (h3 : 1000 / fps ≤ ((now - tl : ℤ) : ℚ)) :
    heldPhase nf fps now s = advanceLabel nf now d s := by
  simp only [heldPhase, h1, h2, if_pos h3]

theorem heldPhase_fast_skip (nf : ℤ) (fps : ℚ) (now : ℤ) (s : MarkState) (d : Fin 3) (tl : ℤ)
    (h1 : s.held_state = some d) (h2 : s.held_state_last_advance = some tl)
    (h3 : ¬ 1000 / fps ≤ ((now - tl : ℤ) : ℚ)) :
    heldPhase nf fps now s = autoStep nf s := by
  simp only [heldPhase, h1, h2, if_neg h3]

/-! Claim theorems. -/

/-- C1 (counterexample): with fps = 10, a digit held from time 0 gets its
first auto-advance at 300 ms (relabeling frame 0, moving to frame 1); at
time 333 ms, 33 ms have elapsed since that advance — at least the claimed
fixed FAST_ADVANCE_DELAY of ~33 ms — yet no further frame is labeled and
the playhead does not move, because the code's threshold is `1000/fps` =
100 ms, which depends on the video fps.  After holding for T = 0.333 s the
label map holds two writes to frame 0 only, not the claimed
`2 + floor((T-0.2)/0.033)` labeled frames. -/
theorem c1_fast_advance_counterexample :
    (runTicks 100 10 [([Event.keydown (Key.digit 1)], false, 0),
        ([], false, 300), ([], false, 333)] initState).labels =
      [((0 : ℤ), (1 : ℤ)), (0, 1)] ∧
    (runTicks 100 10 [([Event.keydown (Key.digit 1)], false, 0),
        ([], false, 300), ([], false, 333)] initState).current_frame = 1 ∧
    (runTicks 100 10 [([Event.keydown (Key.digit 1)], false, 0),
        ([], false, 300), ([], false, 333)] initState).held_state_last_advance =
      some 300 ∧
    (33 : ℤ) ≤ 333 - 300 := by
  refine ⟨?_, ?_, ?_, by norm_num⟩ <;>
    norm_num [runTicks, tick, heldPhase, processEvent, advanceLabel, autoStep, initState]

/-- C1 (amended): in fast-advance mode (held digit `d` with a recorded
last advance at time `tl`), a tick at time `now` advances one frame and
labels the current frame with `d` exactly when
`now - tl ≥ 1000/fps` milliseconds — an interval that depends on the
video fps (100 ms at 10 fps, ~33 ms only at 30 fps); the advance records
`now` as the new last-advance time, and the loop terminates exactly when
the step reaches `nframes` (or the loop was already stopped).  When the
interval has not yet elapsed, no label is written and the last-advance
time is unchanged. -/
theorem c1_fast_advance_amended (nf : ℤ) (fps : ℚ) (sp : Bool) (now : ℤ) (s : MarkState)
    (d : Fin 3) (tl : ℤ)
    (h1 : s.held_state = some d) (h2 : s.held_state_last_advance = some tl) :
    (1000 / fps ≤ ((now - tl : ℤ) : ℚ) →
      (tick nf fps [] sp now s).labels = (s.current_frame, (d.val : ℤ)) :: s.labels ∧
      (tick nf fps [] sp now s).current_frame = s.current_frame + 1 ∧
      (tick nf fps [] sp now s).held_state_last_advance = some now ∧
      ((tick nf fps [] sp now s).running = false ↔
        (nf ≤ s.current_frame + 1 ∨ s.running = false))) ∧
    (¬ 1000 / fps ≤ ((now - tl : ℤ) : ℚ) →
      (tick nf fps [] sp now s).labels = s.labels ∧
      (tick nf fps [] sp now s).held_state_last_advance = some tl) := by
  rw [tick]
  simp only [List.foldl_nil]
  set s2 := if sp then s else { s with auto_play := false } with hs2
  have e1 : s2.held_state = some d := by cases sp <;> simp [hs2, h1]
  have e2 : s2.held_state_last_advance = some tl := by cases sp <;> simp [hs2, h2]
  have e3 : s2.labels = s.labels := by cases sp <;> simp [hs2]
  have e4 : s2.current_frame = s.current_frame := by cases sp <;> simp [hs2]
  have e5 : s2.running = s.running := by cases sp <;> simp [hs2]
  constructor
  · intro hge
    rw [heldPhase_fast_fire nf fps now s2 d tl e1 e2 hge, advanceLabel]
    refine ⟨by dsimp only; rw [e3, e4], by dsimp only; rw [e4], by dsimp only, ?_⟩
    dsimp only
    rw [e4, e5]
    split
    · rename_i hc
      exact iff_of_true rfl (Or.inl hc)
    · rename_i hc
      exact ⟨Or.inr, fun x => x.resolve_left hc⟩
  · intro hlt
    rw [heldPhase_fast_skip nf fps now s2 d tl e1 e2 hlt, autoStep]
    split
    · exact ⟨by dsimp only; rw [e3], by dsimp only; rw [e2]⟩
    · exact ⟨e3, e2⟩

/-- A state in fast-advance mode used to witness C1. -/
def c1WitState : MarkState :=
  { labels := []
    current_frame := 5
    auto_play := false
    held_state := some 2
    held_state_start := some 0
    held_state_last_advance := some 100
    running := true }

/-- Witness for C1: at 25 fps the interval is 40 ms; 40 ms after the last
advance the tick labels the current frame and advances. -/
theorem c1_fast_advance_witness :
    1000 / (25 : ℚ) ≤ ((140 - 100 : ℤ) : ℚ) ∧
    (tick 50 25 [] false 140 c1WitState).labels = [((5 : ℤ), (2 : ℤ))] ∧
    (tick 50 25 [] false 140 c1WitState).current_frame = 6 ∧
    (tick 50 25 [] false 140 c1WitState).held_state_last_advance = some 140 := by
  have h3 : 1000 / (25 : ℚ) ≤ ((140 - 100 : ℤ) : ℚ) := by norm_num
  have h := (c1_fast_advance_amended 50 25 false 140 c1WitState 2 100 rfl rfl).1 h3
  refine ⟨h3, ?_, ?_, h.2.2.1⟩
  · rw [h.1]
    rfl
  · rw [h.2.1]
    rfl

/-- C2 (counterexample): on the first key-down of digit 1 in the initial
state, the current frame 0 is labeled, but the playhead is not advanced:
it stays at 0, not the claimed `min(nframes-1, 0+1) = 1`. -/
theorem c2_first_hold_counterexample :
    (tick 10 30 [Event.keydown (Key.digit 1)] false 0 initState).labels =
      [((0 : ℤ), (1 : ℤ))] ∧
    (tick 10 30 [Event.keydown (Key.digit 1)] false 0 initState).current_frame = 0 ∧
    (tick 10 30 [Event.keydown (Key.digit 1)] false 0 initState).current_frame ≠
      min (10 - 1) (initState.current_frame + 1) := by
  refine ⟨by decide, by decide, by decide⟩

/-- C2 (amended): on first detection that a digit `d` is held (key-down
with no digit currently held), the current frame is labeled with `d`
immediately and the hold-start time is recorded as the current time, with
the last-advance time cleared — but the playhead is NOT advanced; it first
moves only when the 300 ms hold delay later elapses. -/
theorem c2_first_hold_amended (nf : ℤ) (fps : ℚ) (now : ℤ) (s : MarkState) (d : Fin 3)
    (h : s.held_state = none) :
    (processEvent nf fps now s (.keydown (.digit d))).labels =
        (s.current_frame, (d.val : ℤ)) :: s.labels ∧
      (processEvent nf fps now s (.keydown (.digit d))).held_state = some d ∧
      (processEvent nf fps now s (.keydown (.digit d))).held_state_start = some now ∧
      (processEvent nf fps now s (.keydown (.digit d))).held_state_last_advance = none ∧
      (processEvent nf fps now s (.keydown (.digit d))).current_frame = s.current_frame := by
  simp [processEvent, h]

/-- Witness for C2 at a concrete state with the playhead at frame 4. -/
theorem c2_first_hold_witness :
    ({ initState with current_frame := 4 } : MarkState).held_state = none ∧
    (processEvent 12 24 7 { initState with current_frame := 4 }
        (.keydown (.digit 0))).labels = [((4 : ℤ), (0 : ℤ))] ∧
    (processEvent 12 24 7 { initState with current_frame := 4 }
        (.keydown (.digit 0))).held_state = some 0 ∧
    (processEvent 12 24 7 { initState with current_frame := 4 }
        (.keydown (.digit 0))).held_state_start = some 7 ∧
    (processEvent 12 24 7 { initState with current_frame := 4 }
        (.keydown (.digit 0))).current_frame = 4 := by
  have h := c2_first_hold_amended 12 24 7 { initState with current_frame := 4 } 0 rfl
  refine ⟨rfl, ?_, h.2.1, h.2.2.1, h.2.2.2.2⟩
  rw [h.1]
  rfl

/-- C5 (counterexample): pressing digit 2 while digit 1 is already held
leaves the whole state unchanged — the hold is not replaced and no new
label is applied, contrary to the claimed replace-and-relabel behavior. -/
theorem c5_digit_while_held_counterexample :
    (processEvent 10 30 0 initState (.keydown (.digit 1))).held_state = some 1 ∧
    processEvent 10 30 50 (processEvent 10 30 0 initState (.keydown (.digit 1)))
        (.keydown (.digit 2)) =
      processEvent 10 30 0 initState (.keydown (.digit 1)) := by
  exact ⟨by decide, by decide⟩

/-- C5 (amended): a key-down of any digit while some digit is already
held is ignored entirely: the existing held-key session survives
unchanged and no label is written; a hold ends only on key-up of the held
digit itself. -/
theorem c5_digit_while_held_amended (nf : ℤ) (fps : ℚ) (now : ℤ) (s : MarkState)
    (d e : Fin 3) (h : s.held_state = some e) :
    processEvent nf fps now s (.keydown (.digit d)) = s := by
  simp only [processEvent, h]

/-- Witness for C5: digit 2 pressed while digit 0 is held is a no-op. -/
theorem c5_digit_while_held_witness :
    (processEvent 20 24 0 initState (.keydown (.digit 0))).held_state = some 0 ∧
    processEvent 20 24 77 (processEvent 20 24 0 initState (.keydown (.digit 0)))
        (.keydown (.digit 2)) =
      processEvent 20 24 0 initState (.keydown (.digit 0)) :=
  ⟨by decide, c5_digit_while_held_amended 20 24 77 _ 2 0 (by decide)⟩

/-- C4 (counterexample): with fps = 0 the detail window at playhead 5 of
10 frames is [5, 5], of zero width; `draw_progress_bars` then divides by
zero computing the indicator position (modelled: the rendering returns
`none`, the Python code raises `ZeroDivisionError`), and the strip fill is
not a no-op: every column is painted with frame 5's color (gray here),
contrary to the claimed render-nothing, no-division behavior. -/
theorem c4_zero_width_counterexample :
    drawDetail [] 5 10 4 0 = none ∧
    detailBar [] 5 10 4 0 =
      [((128 : ℤ), (128 : ℤ), (128 : ℤ)), (128, 128, 128), (128, 128, 128),
        (128, 128, 128)] := by
  constructor <;>
    norm_num [drawDetail, detailBar, detailWindow, pyInt, getLabel, lget, STATE_COLORS,
      List.range_succ]

/-- C4 (amended): when the detail window has zero width, the rendering is
not a no-op — the fill loop (which performs no division that can raise)
paints every one of the `W` columns with the window start frame's color
when that frame exists, black otherwise — and the subsequent playhead
indicator computation divides by zero, raising an error (modelled as
`none`). -/
theorem c4_zero_width_amended (labels : List (ℤ × ℤ)) (c n : ℤ) (W : ℕ) (fps : ℚ)
    (h : (detailWindow c n fps).2 - (detailWindow c n fps).1 = 0) :
    drawDetail labels c n W fps = none ∧
    detailBar labels c n W fps =
      List.replicate W
        (if (detailWindow c n fps).1 < n
          then STATE_COLORS (getLabel labels (detailWindow c n fps).1)
          else (0, 0, 0)) := by
  constructor
  · simp only [drawDetail]
    rw [if_pos h]
  · rw [detailBar]
    refine List.eq_replicate_iff.mpr ⟨by simp, ?_⟩
    intro b hb
    rcases List.mem_map.mp hb with ⟨x, hx, rfl⟩
    simp only [h, Int.cast_zero, mul_zero, pyInt_zero, add_zero]

/-- Witness for C4: a zero-width window at playhead 3 of 7 frames with
fps = 0; both columns are painted gray and the renderer raises. -/
theorem c4_zero_width_witness :
    ((detailWindow 3 7 (0 : ℚ)).2 - (detailWindow 3 7 (0 : ℚ)).1 = 0) ∧
    drawDetail [] 3 7 2 0 = none ∧
    detailBar [] 3 7 2 0 = List.replicate 2 ((128 : ℤ), (128 : ℤ), (128 : ℤ)) := by
  have h : (detailWindow 3 7 (0 : ℚ)).2 - (detailWindow 3 7 (0 : ℚ)).1 = 0 := by
    norm_num [detailWindow, pyInt]
  have hc := c4_zero_width_amended [] 3 7 2 0 h
  refine ⟨h, hc.1, ?_⟩
  rw [hc.2]
  norm_num [detailWindow, pyInt, getLabel, lget, STATE_COLORS]

/-- C7 (counterexample): at the non-integer fps 29.97, the jump size the
code uses is `int(5*fps)` = 149, the truncation — not the claimed
`round(5*fps)` = 150: jumping forward from frame 0 lands on 149, not
`min(nframes-1, 0 + 150) = 150`. -/
theorem c7_jump_counterexample :
    (processEvent 1000 (2997 / 100) 0 initState (.keydown .period)).current_frame = 149 ∧
    round (5 * (2997 / 100 : ℚ)) = 150 ∧
    (processEvent 1000 (2997 / 100) 0 initState (.keydown .period)).current_frame ≠
      min (1000 - 1) (initState.current_frame + round (5 * (2997 / 100 : ℚ))) := by
  have h1 : pyInt (5 * (2997 / 100 : ℚ)) = 149 := by
    simp only [pyInt]
    norm_num
  have h2 : round (5 * (2997 / 100 : ℚ)) = 150 := by
    rw [round_eq]
    norm_num
  refine ⟨?_, h2, ?_⟩
  · simp only [processEvent, h1, initState]
    norm_num
  · simp only [processEvent, h1, h2, initState]
    norm_num

/-- C7 (amended): each jump control moves the playhead by exactly
`int(5*fps)` frames — Python truncation toward zero, not rounding —
backward clamped below at 0, forward clamped above at `nframes-1`; the
label map is untouched, and for `fps ≥ 0` a playhead in range stays in
`[0, nframes-1]`.  This holds for every fps value, integer or not. -/
theorem c7_jump_amended (nf : ℤ) (fps : ℚ) (now : ℤ) (s : MarkState)
    (hf : 0 ≤ fps) (h0 : 0 ≤ s.current_frame) (h1 : s.current_frame < nf) :
    (processEvent nf fps now s (.keydown .period)).current_frame =
        min (nf - 1) (s.current_frame + pyInt (5 * fps)) ∧
      (processEvent nf fps now s (.keydown .period)).labels = s.labels ∧
      (processEvent nf fps now s (.keydown .comma)).current_frame =
        max 0 (s.current_frame - pyInt (5 * fps)) ∧
      (processEvent nf fps now s (.keydown .comma)).labels = s.labels ∧
      0 ≤ (processEvent nf fps now s (.keydown .period)).current_frame ∧
      (processEvent nf fps now s (.keydown .period)).current_frame < nf ∧
      0 ≤ (processEvent nf fps now s (.keydown .comma)).current_frame ∧
      (processEvent nf fps now s (.keydown .comma)).current_frame < nf := by
  have hj : 0 ≤ pyInt (5 * fps) := pyInt_nonneg (by positivity)
  refine ⟨rfl, rfl, rfl, rfl, ?_, ?_, ?_, ?_⟩ <;> (simp only [processEvent]; omega)

/-- Witness for C7 at fps = 1.5 with the playhead at frame 10 of 200:
`int(5*1.5) = 7`, so the jumps land on 17 and 3. -/
theorem c7_jump_witness :
    (0 : ℚ) ≤ 3 / 2 ∧
    (processEvent 200 (3 / 2) 0 { initState with current_frame := 10 }
        (.keydown .period)).current_frame = 17 ∧
    (processEvent 200 (3 / 2) 0 { initState with current_frame := 10 }
        (.keydown .comma)).current_frame = 3 := by
  have hf : (0 : ℚ) ≤ 3 / 2 := by norm_num
  have h := c7_jump_amended 200 (3 / 2) 0 { initState with current_frame := 10 }
    hf (by decide) (by decide)
  have hp : pyInt (5 * (3 / 2 : ℚ)) = 7 := by
    simp only [pyInt]
    norm_num
  refine ⟨hf, ?_, ?_⟩
  · rw [h.1, hp]
    decide
  · rw [h.2.2.1, hp]
    decide

/-- C6: after the playback loop, gap-fill makes the label map total over
`[0, nframes)`: a never-labeled frame maps to `-1` and a labeled frame
keeps its last-written state; the exported CSV has exactly `nframes` data
rows, the `i`-th row being `frame i` with its state and state label, and
never-labeled frames exporting state `-1` with label "unlabeled". -/
theorem c6_gap_fill_export (l : List (ℤ × ℤ)) (n i : ℕ) (h : i < n) :
    lget (gapFill n l) (i : ℤ) = some (getLabel l (i : ℤ)) ∧
    (exportRows n (gapFill n l)).length = n ∧
    (exportRows n (gapFill n l))[i]? =
      some ((i : ℤ), getLabel l (i : ℤ), stateLabelName (getLabel l (i : ℤ))) ∧
    (lget l (i : ℤ) = none →
      getLabel l (i : ℤ) = -1 ∧ stateLabelName (getLabel l (i : ℤ)) = "unlabeled") := by
  refine ⟨?_, ?_, ?_, ?_⟩
  · rw [lget_gapFill, getLabel]
    by_cases hc : lget l (i : ℤ) = none
    · rw [if_pos ⟨by omega, by omega, hc⟩, hc]
      rfl
    · rw [if_neg (fun hx => hc hx.2.2)]
      rcases ho : lget l (i : ℤ) with - | v
      · exact absurd ho hc
      · rfl
  · rw [exportRows, List.length_map, List.length_range]
  · rw [exportRows, List.getElem?_map, List.getElem?_range h, Option.map_some',
      getLabel_gapFill]
  · intro hnone
    rw [getLabel, hnone]
    exact ⟨rfl, rfl⟩

/-- C3 (counterexample): the auto-play step that terminates the session
does leave the playhead outside `[0, nframes-1]`: with 10 frames, holding
space for 10 display ticks ends the session with the playhead equal to
10 = nframes, not clamped to 9. -/
theorem c3_playhead_counterexample :
    (runTicks 10 30 (([Event.keydown Key.space], true, 0) ::
        List.replicate 9 ([], true, 0)) initState).current_frame = 10 ∧
      (runTicks 10 30 (([Event.keydown Key.space], true, 0) ::
        List.replicate 9 ([], true, 0)) initState).running = false ∧
      ¬ (runTicks 10 30 (([Event.keydown Key.space], true, 0) ::
        List.replicate 9 ([], true, 0)) initState).current_frame ≤ 10 - 1 := by
  refine ⟨by decide, by decide, by decide⟩

/-- C3 (amended): from the initial state, under any tick trace with
`nframes > 0` and `fps ≥ 0`, the playhead stays in `[0, nframes]`; it
stays in `[0, nframes-1]` whenever the loop is still running, and it can
equal `nframes` only in a terminated state (direct steps and jumps clamp,
while the auto-advance and auto-play increments do not, stopping the loop
instead when they step past the end). -/
theorem c3_playhead_amended (nf : ℤ) (fps : ℚ) (ts : List (List Event × Bool × ℤ))
    (hn : 0 < nf) (hf : 0 ≤ fps) :
    0 ≤ (runTicks nf fps ts initState).current_frame ∧
      (runTicks nf fps ts initState).current_frame ≤ nf ∧
      ((runTicks nf fps ts initState).running = true →
        (runTicks nf fps ts initState).current_frame < nf) :=
  runTicks_bounds nf fps ts (pyInt_nonneg (by positivity)) initState le_rfl
    (show (0 : ℤ) ≤ nf by omega) (fun _ => hn)

/-- Witness for C3 at a concrete frame count, fps and trace. -/
theorem c3_playhead_amended_witness :
    0 ≤ (runTicks 3 1 [([Event.keydown Key.right], false, 0)] initState).current_frame ∧
      (runTicks 3 1 [([Event.keydown Key.right], false, 0)] initState).current_frame ≤ 3 ∧
      ((runTicks 3 1 [([Event.keydown Key.right], false, 0)] initState).running = true →
        (runTicks 3 1 [([Event.keydown Key.right], false, 0)] initState).current_frame < 3) :=
  c3_playhead_amended 3 1 [([Event.keydown Key.right], false, 0)] (by norm_num) (by norm_num)

/-- C10: every value stored in the label map during the interactive loop
lies in `{0, 1, 2}` (each write originates from a digit key 0/1/2), and
after the post-loop gap-fill every stored value lies in `{-1, 0, 1, 2}`,
the value `-1` being introduced only by that gap-fill. -/
theorem c10_label_range (nf : ℤ) (fps : ℚ) (ts : List (List Event × Bool × ℤ)) (n : ℕ) :
    (∀ p ∈ (runTicks nf fps ts initState).labels, p.2 = 0 ∨ p.2 = 1 ∨ p.2 = 2) ∧
      ∀ p ∈ gapFill n (runTicks nf fps ts initState).labels,
        p.2 = -1 ∨ p.2 = 0 ∨ p.2 = 1 ∨ p.2 = 2 := by
  have h := runTicks_labels_sub nf fps ts initState (by intro p hp; simp [initState] at hp)
  exact ⟨h, gapFill_labels_sub n _ h⟩

/-- Witness for C10: a one-tick session that labels frame 0 with digit 2,
whose single stored entry indeed carries a value in `{0, 1, 2}`. -/
theorem c10_label_range_witness :
    ((0 : ℤ), (2 : ℤ)) ∈
        (runTicks 5 30 [([Event.keydown (Key.digit 2)], false, 0)] initState).labels ∧
      (((0 : ℤ), (2 : ℤ)).2 = 0 ∨ ((0 : ℤ), (2 : ℤ)).2 = 1 ∨ ((0 : ℤ), (2 : ℤ)).2 = 2) :=
  ⟨by decide,
    (c10_label_range 5 30 [([Event.keydown (Key.digit 2)], false, 0)] 0).1
      ((0 : ℤ), (2 : ℤ)) (by decide)⟩

/-- C8 (amended): for every combined-table column, `percentage_s` is
state `s`'s share of the column's present entries whose value lies in
`{-1, 0, 1, 2}` — not of all rows of the table; missing (outer-join)
cells and out-of-enumeration values are excluded from the denominator —
and `corrected_percentage_s` is the share among the column's present
entries in `{0, 1, 2}`; both are Python-rounded to 2 decimal places, and
a zero denominator yields 0. -/
theorem c8_summary_amended (col : List (Option ℤ)) :
    ((summaryFor col).percentage_m1 =
        (if 0 < presentEnumCount col
          then pyRound2 ((countVal col (-1) : ℚ) / (presentEnumCount col : ℚ) * 100)
          else 0)) ∧
      ((summaryFor col).percentage_0 =
        (if 0 < presentEnumCount col
          then pyRound2 ((countVal col 0 : ℚ) / (presentEnumCount col : ℚ) * 100)
          else 0)) ∧
      ((summaryFor col).percentage_1 =
        (if 0 < presentEnumCount col
          then pyRound2 ((countVal col 1 : ℚ) / (presentEnumCount col : ℚ) * 100)
          else 0)) ∧
      ((summaryFor col).percentage_2 =
        (if 0 < presentEnumCount col
          then pyRound2 ((countVal col 2 : ℚ) / (presentEnumCount col : ℚ) * 100)
          else 0)) ∧
      ((summaryFor col).corrected_percentage_0 =
        (if 0 < labeledCount col
          then pyRound2 ((countVal col 0 : ℚ) / (labeledCount col : ℚ) * 100)
          else 0)) ∧
      ((summaryFor col).corrected_percentage_1 =
        (if 0 < labeledCount col
          then pyRound2 ((countVal col 1 : ℚ) / (labeledCount col : ℚ) * 100)
          else 0)) ∧
      ((summaryFor col).corrected_percentage_2 =
        (if 0 < labeledCount col
          then pyRound2 ((countVal col 2 : ℚ) / (labeledCount col : ℚ) * 100)
          else 0)) := by
  have h1 := countVal_sum_eq_presentEnum col
  have h2 := countVal_sum_eq_labeled col
  simp only [summaryFor]
  rw [h1, h2]
  exact ⟨rfl, rfl, rfl, rfl, rfl, rfl, rfl⟩

/-- The rows of a first labels file, used to exhibit C8 on a real
outer-joined table. -/
def fileA : List (ℤ × ℤ) := [(0, 0), (1, 0), (2, 0)]

/-- The rows of a second labels file covering one extra frame. -/
def fileB : List (ℤ × ℤ) := [(0, 0), (1, 1), (2, 2), (3, 0)]

/-- The combined table of the two example files. -/
def exCombined : List (List Char × List (Option ℤ)) :=
  combineFiles [("a_labels.csv".toList, some fileA), ("b_labels.csv".toList, some fileB)]

/-- The first column of the example combined table: `a`'s states over the
four joined frames, missing at frame 3. -/
def exColA : List (Option ℤ) := (exCombined.map Prod.snd).headD []

/-- C8 (counterexample): in the combined table of files covering frames
0-2 and 0-3, column `a_state` has 4 rows but only 3 present entries (all
state 0); the code reports `percentage_0 = 100` — state 0's share of the
column's present entries — while the claimed share of all rows of the
combined table would be 75. -/
theorem c8_summary_counterexample :
    exColA = [some 0, some 0, some 0, none] ∧
    (summaryFor exColA).percentage_0 = 100 ∧
    exColA.length = 4 ∧ countVal exColA 0 = 3 ∧
    pyRound2 ((countVal exColA 0 : ℚ) / (exColA.length : ℚ) * 100) = 75 ∧
    (100 : ℚ) ≠ 75 := by
  have hc : exColA = [some 0, some 0, some 0, none] := by decide
  refine ⟨hc, ?_, by decide, by decide, ?_, by norm_num⟩
  · rw [hc]
    simp only [summaryFor, countVal]
    norm_num [pyRound2, roundHalfEven, round_eq]
  · rw [show countVal exColA 0 = 3 from by decide, show exColA.length = 4 from by decide]
    norm_num [pyRound2, roundHalfEven, round_eq]

/-- C9 (counterexample): for a label file walked at `data/a_labels.csv`,
the code's combined-table column name is `data/a_state` — the walked path
(directory prefix included) with extension dropped, every `_labels`
occurrence removed and `_state` appended — not the claimed
stem-with-suffix-stripped name `a_state`. -/
theorem c9_column_name_counterexample :
    colName ("data/a_labels.csv".toList) = "data/a_state".toList ∧
    specColName ("data/a_labels.csv".toList) = "a_state".toList ∧
    colName ("data/a_labels.csv".toList) ≠ specColName ("data/a_labels.csv".toList) := by
  exact ⟨by decide, by decide, by decide⟩

/-- C9 (amended): each successfully processed input label file
contributes exactly one column to the combined table, in input order,
named by `colName`: the file's walked path without its extension, with
every occurrence of the substring `_labels` removed, followed by
`_state`; files that fail to read or lack a `state` column contribute
nothing. -/
theorem c9_column_name_amended (files : List (List Char × Option (List (ℤ × ℤ)))) :
    (combineFiles files).map Prod.fst =
        (files.filterMap (fun f => f.2.map (fun _ => f.1))).map colName ∧
      (combineFiles files).length = (files.filterMap (fun f => f.2)).length := by
  constructor
  · simp only [combineFiles]
    exact map_fst_filterMap_aux _ files
  · simp only [combineFiles]
    rw [List.length_map]
    exact length_filterMap_aux files

/-- Witness for C6 at a concrete label map, frame count and index. -/
theorem c6_gap_fill_export_witness :
    (1 : ℕ) < 3 ∧
    lget (gapFill 3 [(0, 2)]) (1 : ℤ) = some (-1) ∧
    (exportRows 3 (gapFill 3 [(0, 2)])).length = 3 ∧
    (exportRows 3 (gapFill 3 [(0, 2)]))[1]? = some ((1 : ℤ), -1, "unlabeled") := by
  have h := c6_gap_fill_export [(0, 2)] 3 1 (by norm_num)
  refine ⟨by norm_num, ?_, ?_, ?_⟩
  · exact h.1
  · exact h.2.1
  · exact h.2.2.1

end Marker
